import Mathlib

/-
  Verification development for the Product Evolution Engine repository.

  The repository ships a Next.js frontend (execution modal, feature graph,
  API client), an Express auth/health glue layer, and a PRD describing the
  Autonomous Execution Orchestrator ("Module D").  The orchestrator itself
  (RetryController, VerificationRunner, PublishStage, ExecutionStateStore)
  has no implementation in the provided sources, so those components are
  modelled from the specification text; every such definition carries a
  doc comment starting with "Modelled from the spec:".  All frontend and
  middleware definitions are translated directly from the TypeScript
  sources.
-/

namespace PEE

/-! ## Orchestrator state machine (Module D)

Modelled from the spec: the RetryController of §4.3, the per-run mutable
record of §3, and the ScopePolicy evaluation of §4.2.  No implementation
of these components exists in the repository sources; the model follows
the spec's transition table and error taxonomy literally. -/

/-- Modelled from the spec: the RetryController states of §4.3. -/
inductive Status
  | QUEUED | CLONING | PLANNING | TESTING | BUILDING
  | VERIFYING | PUSHING | DONE | FAILED | CANCELLED
deriving DecidableEq, Repr

/-- Modelled from the spec: the error taxonomy of §7. -/
inductive FailureReason
  | InfraError | GeneratorError | ScopeViolation
  | VerificationFailure | AgentTimeout | RunTimeout | PublishError
deriving DecidableEq, Repr

/-- Modelled from the spec: immutable per-run scope configuration (§3):
maximum files changed and forbidden path beginnings. -/
structure ScopePolicy where
  maxFilesChanged : Nat
  forbiddenPaths : List String
deriving DecidableEq, Repr

/-- JavaScript's `String.prototype.startsWith`, modelled over the string's
character data. -/
def strStartsWith (s p : String) : Bool :=
  s.data.take p.data.length == p.data

/-- Modelled from the spec: ScopePolicy evaluation of the agent's diff
(§4.2): files changed > max, or any changed path under a forbidden
path beginning, is a violation. -/
def scopeViolation (policy : ScopePolicy) (changedFiles : List String) : Bool :=
  changedFiles.length > policy.maxFilesChanged ||
    changedFiles.any (fun f => policy.forbiddenPaths.any (fun p => strStartsWith f p))

/-- Modelled from the spec: the mutable ExecutionRun record (§3), restricted
to the fields the verified invariants concern.  `buildAttempts` is the
ghost count of BUILDING attempts made so far, incremented exactly when a
build attempt starts. -/
structure Run where
  status : Status
  iterationCount : Nat
  maxIterations : Nat
  filesChanged : Nat
  prUrl : Option String
  failureReason : Option FailureReason
  buildAttempts : Nat
  policy : ScopePolicy
deriving DecidableEq, Repr

/-- Modelled from the spec: the external occurrences that drive the §4.3
transition table.  `agentDone` carries the list of changed file paths of
the agent's diff. -/
inductive Event
  | start
  | sandboxReady
  | infraError
  | planProduced
  | testsWritten
  | generatorError
  | agentDone (changedFiles : List String)
  | agentTimeout
  | checksPass
  | checksFail
  | pushed (url : String)
  | publishError
  | cancel
  | runTimeout
deriving DecidableEq, Repr

/-- Modelled from the spec: terminal states DONE, FAILED, CANCELLED (§4.3). -/
def Status.isTerminal : Status → Bool
  | .DONE => true
  | .FAILED => true
  | .CANCELLED => true
  | _ => false

/-- Modelled from the spec: a run is created in QUEUED with iteration
count 0 (§3, §4.3). -/
def initRun (maxIterations : Nat) (policy : ScopePolicy) : Run :=
  { status := .QUEUED
    iterationCount := 0
    maxIterations := maxIterations
    filesChanged := 0
    prUrl := none
    failureReason := none
    buildAttempts := 0
    policy := policy }

/-- Modelled from the spec: one transition of the §4.3 table.  Events that
do not apply in the current state leave the run unchanged; terminal states
admit no transition at all. -/
def step (r : Run) (e : Event) : Run :=
  match r.status, e with
  | .QUEUED, .start => { r with status := .CLONING }
  | .CLONING, .sandboxReady => { r with status := .PLANNING }
  | .CLONING, .infraError =>
      { r with status := .FAILED, failureReason := some .InfraError }
  | .PLANNING, .planProduced => { r with status := .TESTING }
  | .PLANNING, .generatorError =>
      { r with status := .FAILED, failureReason := some .GeneratorError }
  | .TESTING, .testsWritten =>
      { r with status := .BUILDING
               iterationCount := r.iterationCount + 1
               buildAttempts := r.buildAttempts + 1 }
  | .TESTING, .generatorError =>
      { r with status := .FAILED, failureReason := some .GeneratorError }
  | .BUILDING, .agentDone changedFiles =>
      if scopeViolation r.policy changedFiles then
        { r with status := .FAILED
                 failureReason := some .ScopeViolation
                 filesChanged := changedFiles.length }
      else
        { r with status := .VERIFYING, filesChanged := changedFiles.length }
  | .BUILDING, .agentTimeout =>
      if r.iterationCount < r.maxIterations then
        { r with iterationCount := r.iterationCount + 1
                 buildAttempts := r.buildAttempts + 1 }
      else
        { r with status := .FAILED, failureReason := some .AgentTimeout }
  | .VERIFYING, .checksPass => { r with status := .PUSHING }
  | .VERIFYING, .checksFail =>
      if r.iterationCount < r.maxIterations then
        { r with status := .BUILDING
                 iterationCount := r.iterationCount + 1
                 buildAttempts := r.buildAttempts + 1 }
      else
        { r with status := .FAILED, failureReason := some .VerificationFailure }
  | .PUSHING, .pushed url => { r with status := .DONE, prUrl := some url }
  | .PUSHING, .publishError =>
      { r with status := .FAILED, failureReason := some .PublishError }
  | .QUEUED, .cancel => { r with status := .CANCELLED }
  | .CLONING, .cancel => { r with status := .CANCELLED }
  | .PLANNING, .cancel => { r with status := .CANCELLED }
  | .TESTING, .cancel => { r with status := .CANCELLED }
  | .BUILDING, .cancel => { r with status := .CANCELLED }
  | .VERIFYING, .cancel => { r with status := .CANCELLED }
  | .PUSHING, .cancel => { r with status := .CANCELLED }
  | .QUEUED, .runTimeout =>
      { r with status := .FAILED, failureReason := some .RunTimeout }
  | .CLONING, .runTimeout =>
      { r with status := .FAILED, failureReason := some .RunTimeout }
  | .PLANNING, .runTimeout =>
      { r with status := .FAILED, failureReason := some .RunTimeout }
  | .TESTING, .runTimeout =>
      { r with status := .FAILED, failureReason := some .RunTimeout }
  | .BUILDING, .runTimeout =>
      { r with status := .FAILED, failureReason := some .RunTimeout }
  | .VERIFYING, .runTimeout =>
      { r with status := .FAILED, failureReason := some .RunTimeout }
  | .PUSHING, .runTimeout =>
      { r with status := .FAILED, failureReason := some .RunTimeout }
  | _, _ => r

/-- Modelled from the spec: the run record produced by replaying a
sequence of events from creation. -/
def runTrace (maxIterations : Nat) (policy : ScopePolicy) (events : List Event) : Run :=
  events.foldl step (initRun maxIterations policy)

/-- The inductive invariant tying the iteration count to the build-attempt
count and to the cap. -/
def IterInv (r : Run) : Prop :=
  1 ≤ r.maxIterations ∧
  r.iterationCount = r.buildAttempts ∧
  r.iterationCount ≤ r.maxIterations ∧
  ((r.status = .QUEUED ∨ r.status = .CLONING ∨ r.status = .PLANNING ∨
      r.status = .TESTING) → r.iterationCount = 0)

/-- The inductive invariant for the change-request URL field. -/
def UrlInv (r : Run) : Prop :=
  r.prUrl.isSome ↔ r.status = .DONE

/-! ## VerificationRunner (§4.4)

Modelled from the spec: no implementation exists in the sources.  The
declared checks, in their fixed order, are the automated-test command,
the lint command and the type-check command (PRD Module D); a check whose
script is absent from the project is skipped; execution stops at the
first failing check. -/

/-- Modelled from the spec: the kinds of declared checks, in §4.4's fixed
order test, lint, typecheck. -/
inductive CheckKind
  | test | lint | typecheck
deriving DecidableEq, Repr

/-- Modelled from the spec: the fixed order in which declared checks run. -/
def checkOrder : List CheckKind := [.test, .lint, .typecheck]

/-- Exit status and captured output of one executed check command. -/
structure CheckOutcome where
  exitCode : Nat
  output : String
deriving DecidableEq, Repr

/-- Modelled from the spec: the sandbox as the VerificationRunner sees it —
which check scripts are detected as present, and what each command does
when executed (exit code 0 = pass, nonzero = fail). -/
structure SandboxChecks where
  hasScript : CheckKind → Bool
  exec : CheckKind → CheckOutcome

/-- The record kept for one executed check. -/
structure CheckResult where
  kind : CheckKind
  exitCode : Nat
  output : String
deriving DecidableEq, Repr

/-- Modelled from the spec: the bound to which captured check output is
truncated for logging. -/
def maxCapturedOutput : Nat := 4000

/-- Truncation of captured output to the logging bound, over the string's
character data. -/
def truncOutput (s : String) : String :=
  ⟨s.data.take maxCapturedOutput⟩

/-- Modelled from the spec: run the given checks in order; a check whose
script is absent is skipped, and execution stops at the first failing
check. -/
def runChecks (sandbox : SandboxChecks) : List CheckKind → List CheckResult
  | [] => []
  | c :: rest =>
    if sandbox.hasScript c then
      let o := sandbox.exec c
      if o.exitCode = 0 then
        ⟨c, o.exitCode, truncOutput o.output⟩ :: runChecks sandbox rest
      else
        [⟨c, o.exitCode, truncOutput o.output⟩]
    else
      runChecks sandbox rest

/-- Aggregate result of a verification pass. -/
structure VerificationResult where
  passed : Bool
  results : List CheckResult
deriving DecidableEq, Repr

/-- Modelled from the spec: `verify(sandbox)` of §4.4. -/
def verify (sandbox : SandboxChecks) : VerificationResult :=
  let rs := runChecks sandbox checkOrder
  ⟨rs.all (fun r => r.exitCode == 0), rs⟩

/-! ## PublishStage (§4.5)

Modelled from the spec: no implementation exists in the sources.  The
model captures the change-request side of `publish` for a run with no
new commits: find an existing open change request on the branch and
reuse it (updating the description), otherwise create one. -/

/-- An open change request on the remote host. -/
structure ChangeRequest where
  branch : String
  url : String
  description : String
deriving DecidableEq, Repr

/-- Modelled from the spec: the URL of the change request the remote host
creates for a branch. -/
def changeRequestUrl (branch : String) : String :=
  "https://remote.host/change-requests/" ++ branch

/-- Modelled from the spec: `publish(run, sandbox)` of §4.5, restricted to
the no-new-commits case the idempotency clause concerns.  Before creating
a change request it checks for an existing open one on the same branch and
reuses it (updating the description) rather than duplicating.  Returns the
host's new set of open change requests and the change-request URL. -/
def publish (host : List ChangeRequest) (branch description : String) :
    List ChangeRequest × String :=
  match host.find? (fun cr => cr.branch == branch) with
  | some existing =>
      (host.map (fun cr =>
        if cr.branch == branch then { cr with description := description } else cr),
       existing.url)
  | none =>
      (host ++ [⟨branch, changeRequestUrl branch, description⟩],
       changeRequestUrl branch)

/-! ## ExecutionStateStore: run logs (§3, §6)

Modelled from the spec: the backend GET run-logs route is absent from the
sources (only the frontend client `getExecutionLogs` exists). -/

/-- One append-only ExecutionLog line (§3). -/
structure ExecutionLog where
  runId : String
  seq : Nat
  stepLabel : String
  level : String
  message : String
deriving DecidableEq, Repr

/-- Modelled from the spec: the `GET run logs` read operation of §6 —
returns the run's ExecutionLog entries, optionally from a given sequence
cursor onward, to support incremental polling without re-reading
history. -/
def getRunLogs (store : List ExecutionLog) (runId : String)
    (cursor : Option Nat) : List ExecutionLog :=
  let runLogs := store.filter (fun l => l.runId == runId)
  match cursor with
  | none => runLogs
  | some c => runLogs.filter (fun l => decide (c ≤ l.seq))

/-! ## ExecutionModal (frontend)

Translated from the ExecutionModal component source: its status-label
mapping and its status-polling loop. -/

/-- The `STATUS_LABELS` mapping of the ExecutionModal component, as the
ordered list of its key/label pairs. -/
def STATUS_LABELS : List (String × String) :=
  [("queued", "Queued"),
   ("cloning", "Cloning repository..."),
   ("planning", "Generating plan..."),
   ("testing", "Writing tests..."),
   ("building", "Claude Code building..."),
   ("verifying", "Running verification..."),
   ("pushing", "Pushing & opening PR..."),
   ("done", "Complete!"),
   ("failed", "Failed")]

/-- The lower-case encoding in which run statuses reach the UI. -/
def Status.key : Status → String
  | .QUEUED => "queued"
  | .CLONING => "cloning"
  | .PLANNING => "planning"
  | .TESTING => "testing"
  | .BUILDING => "building"
  | .VERIFYING => "verifying"
  | .PUSHING => "pushing"
  | .DONE => "done"
  | .FAILED => "failed"
  | .CANCELLED => "cancelled"

/-- All ten RetryController states of §4.3. -/
def allStatuses : List Status :=
  [.QUEUED, .CLONING, .PLANNING, .TESTING, .BUILDING,
   .VERIFYING, .PUSHING, .DONE, .FAILED, .CANCELLED]

/-- The RetryController state set of §4.3 in the encoding the UI receives;
this is the spec-side list the UI mapping is compared against. -/
def retryControllerStates : List String := allStatuses.map Status.key

/-- The ExecutionModal polling loop's self-termination test, translated
from the component source: the loop breaks exactly when the fetched run
status is "done" or "failed". -/
def pollShouldStop (status : String) : Bool :=
  status == "done" || status == "failed"

/-- The polling loop of the ExecutionModal over the successive statuses
fetched while the modal stays mounted: `some n` means the loop broke on
its own after fetching the status at index `n`; `none` means it was still
re-polling (every 2 seconds) when the sequence ended, i.e. it stops only
by unmounting. -/
def pollLoop : List String → Option Nat
  | [] => none
  | s :: rest =>
    if pollShouldStop s then some 0
    else (pollLoop rest).map (fun n => n + 1)

/-! ## Service-layer authentication middleware

Translated from `src/middleware/authMiddleware.ts` and
`src/utils/tokenUtil.ts`.  JSON web tokens are modelled as structured
values; a token-string environment maps the wire form of a token to the
value the jwt library sees in it. -/

/-- The payload carried by an auth token. -/
structure UserPayload where
  id : String
  permissions : List String
deriving DecidableEq, Repr

/-- A signed JSON web token: its payload, the secret it was signed with,
and its expiry instant (seconds). -/
structure Jwt where
  payload : UserPayload
  secret : String
  expiresAt : Nat
deriving DecidableEq, Repr

/-- What the jwt library sees in a token string: either a malformed string
or a signed token value. -/
inductive TokenRepr
  | malformed
  | signed (jwt : Jwt)
deriving DecidableEq, Repr

/-- `jwt.decode`: reads the payload without verifying the signature;
returns null only for a malformed token. -/
def jwtDecode : TokenRepr → Option UserPayload
  | .malformed => none
  | .signed j => some j.payload

/-- The failures `jwt.verify` distinguishes that the middleware inspects:
`TokenExpiredError` versus everything else. -/
inductive VerifyFail
  | expired
  | invalid
deriving DecidableEq, Repr

/-- `jwt.verify(token, secret)` at clock instant `now`: a wrong secret or
malformed token is invalid; a correctly signed token past its expiry
raises `TokenExpiredError`. -/
def jwtVerify (secret : String) (now : Nat) : TokenRepr → Except VerifyFail UserPayload
  | .malformed => .error .invalid
  | .signed j =>
    if j.secret = secret then
      if j.expiresAt ≤ now then .error .expired else .ok j.payload
    else .error .invalid

/-- The JWT secret of `tokenUtil.ts`. -/
def JWT_SECRET : String := "pee-auth-secret-key-for-testing"

/-- The default token lifetime of `createToken` ('1h'), in seconds. -/
def defaultTokenLifetime : Nat := 3600

/-- `createToken` of `tokenUtil.ts`: signs `{ id, permissions }` with
`JWT_SECRET`; called by the middleware without options, so the default
lifetime applies. -/
def createToken (user : UserPayload) (now : Nat) (lifetime : Nat) : Jwt :=
  { payload := { id := user.id, permissions := user.permissions }
    secret := JWT_SECRET
    expiresAt := now + lifetime }

/-- The request headers `authMiddleware` reads. -/
structure AuthRequest where
  authorization : Option String
  xRefreshToken : Option String
deriving DecidableEq, Repr

/-- Truthiness of an optional header string (absent and "" are falsy). -/
def headerTruthy : Option String → Bool
  | none => false
  | some s => s ≠ ""

/-- What the middleware does with a request: pass to the next handler with
the verified user attached, or answer with a status, message, and possibly
a freshly issued token. -/
inductive AuthOutcome
  | next (user : UserPayload)
  | respond (status : Nat) (message : String) (token : Option Jwt)
deriving DecidableEq, Repr

/-- `authMiddleware` of `authMiddleware.ts`.  `env` maps each token string
to the token value the jwt library sees in it; `now` is the clock. -/
def authMiddleware (env : String → TokenRepr) (now : Nat)
    (req : AuthRequest) : AuthOutcome :=
  match req.authorization with
  | none => .respond 401 "Unauthorized" none
  | some authHeader =>
    if strStartsWith authHeader "Bearer " then
      let token := (authHeader.splitOn " ").getD 1 ""
      match jwtVerify JWT_SECRET now (env token) with
      | .ok payload => .next payload
      | .error .expired =>
        if headerTruthy req.xRefreshToken then
          match jwtDecode (env token) with
          | some decoded =>
              .respond 200 "Token refreshed"
                (some (createToken { id := decoded.id, permissions := decoded.permissions }
                  now defaultTokenLifetime))
          | none => .respond 401 "Token expired" none
        else
          .respond 401 "Token expired" none
      | .error .invalid => .respond 401 "Unauthorized" none
    else
      .respond 401 "Unauthorized" none

/-! ## FeatureGraphView: toFlowNodes (frontend)

Translated from the `toFlowNodes` function of the FeatureGraphView
component: root nodes are the features with a falsy `parent_feature_id`,
a child map groups the remaining features under their parent id, and a
recursive `layout` lays each feature out in depth-first preorder,
advancing a shared `y` counter by 100 per node and placing each node at
`x = depth * 320`.  The recursion is embedded with explicit fuel bounding
its depth: a `none` result means the source recursion would still be
running at that depth. -/

/-- A feature node as the component receives it. -/
structure FeatureNode where
  id : String
  parent_feature_id : Option String
  name : String
  description : String
  risk_score : Option Int
  anchor_files : List String
deriving DecidableEq, Repr

/-- A laid-out React Flow node. -/
structure FlowNode where
  id : String
  nodeType : String
  x : Nat
  y : Nat
  label : String
  description : String
  riskScore : Option Int
  anchorFiles : List String
deriving DecidableEq, Repr

/-- JS truthiness of the optional `parent_feature_id` (null, undefined and
"" are falsy). -/
def truthyId : Option String → Bool
  | none => false
  | some s => s ≠ ""

/-- The child map's entry for a parent id: the features (in input order)
whose truthy `parent_feature_id` equals it. -/
def childrenOf (features : List FeatureNode) (pid : String) : List FeatureNode :=
  features.filter
    (fun f => truthyId f.parent_feature_id && f.parent_feature_id == some pid)

/-- The node `layout` pushes for a feature at a given depth and `y`. -/
def mkFlowNode (f : FeatureNode) (depth : Nat) (y : Nat) : FlowNode :=
  { id := f.id
    nodeType := "feature"
    x := depth * 320
    y := y
    label := f.name
    description := f.description
    riskScore := f.risk_score
    anchorFiles := f.anchor_files }

mutual

/-- The recursive `layout(feature, x, depth)` call of `toFlowNodes`: push
the feature's node, then lay out its children one depth deeper.  Returns
the nodes pushed and the advanced `y` counter; `none` when the recursion
depth exceeds the fuel. -/
def layoutNode (features : List FeatureNode) : Nat → FeatureNode → Nat → Nat →
    Option (List FlowNode × Nat)
  | 0, _, _, _ => none
  | fuel + 1, f, depth, y =>
    match layoutChildren features fuel (childrenOf features f.id) (depth + 1) (y + 100) with
    | none => none
    | some (ns, yNext) => some (mkFlowNode f depth y :: ns, yNext)
termination_by fuel _ _ _ => (fuel, 0)

/-- The `for (const child of children) layout(child, ...)` loop: lay out
each listed feature at the given depth, threading the `y` counter. -/
def layoutChildren (features : List FeatureNode) : Nat → List FeatureNode → Nat → Nat →
    Option (List FlowNode × Nat)
  | _, [], _, y => some ([], y)
  | fuel, c :: rest, depth, y =>
    match layoutNode features fuel c depth y with
    | none => none
    | some (ns, yMid) =>
      match layoutChildren features fuel rest depth yMid with
      | none => none
      | some (ns2, yNext) => some (ns ++ ns2, yNext)
termination_by fuel cs _ _ => (fuel, cs.length + 1)

end

/-- `toFlowNodes(features)` with explicit recursion fuel: lay out every
root node (falsy parent) at depth 0, in order. -/
def toFlowNodesFuel (fuel : Nat) (features : List FeatureNode) :
    Option (List FlowNode) :=
  let rootNodes := features.filter (fun f => !(truthyId f.parent_feature_id))
  match layoutChildren features fuel rootNodes 0 0 with
  | none => none
  | some (ns, _) => some ns

/-- A feature whose ancestor chain — following `parent_feature_id` through
the feature list — reaches a feature with a falsy parent id. -/
inductive ReachesRoot (features : List FeatureNode) : FeatureNode → Prop
  | root (f : FeatureNode) :
      truthyId f.parent_feature_id = false → ReachesRoot features f
  | child (f g : FeatureNode) :
      g ∈ features → truthyId f.parent_feature_id = true →
      f.parent_feature_id = some g.id → ReachesRoot features g →
      ReachesRoot features f

/-- The strict ancestor chain of a feature, nearest ancestor first, ending
at a feature with a falsy parent id. -/
inductive AncChain (features : List FeatureNode) : List FeatureNode → FeatureNode → Prop
  | nil (f : FeatureNode) :
      truthyId f.parent_feature_id = false → AncChain features [] f
  | cons (f g : FeatureNode) (p : List FeatureNode) :
      g ∈ features → truthyId f.parent_feature_id = true →
      f.parent_feature_id = some g.id → AncChain features p g →
      AncChain features (g :: p) f

/-- A parentless feature with id "x". -/
def featureA : FeatureNode := ⟨"x", none, "A", "", none, []⟩

/-- A second feature with the same id "x", naming "x" as its parent. -/
def featureB : FeatureNode := ⟨"x", some "x", "B", "", none, []⟩

/-- An input list with duplicate ids: featureB is simultaneously a child
of featureA (whose id it shares) and of itself in the child map. -/
def duplicateIdFeatures : List FeatureNode := [featureA, featureB]

theorem iterInv_init (m : Nat) (policy : ScopePolicy) (hm : 1 ≤ m) :
    IterInv (initRun m policy) := by
  refine ⟨hm, rfl, by simp [initRun], fun _ => rfl⟩

set_option maxHeartbeats 2000000 in
theorem iterInv_step (r : Run) (e : Event) (h : IterInv r) : IterInv (step r e) := by
  obtain ⟨st, ic, mi, fc, pu, fr, ba, pol⟩ := r
  obtain ⟨hm, hba, hle, hzero⟩ := h
  simp only [IterInv] at hzero ⊢
  cases st <;> cases e <;>
    simp only [step] <;>
    (try split) <;>
    (refine ⟨?_, ?_, ?_, ?_⟩ <;> (try simp_all) <;> omega)

theorem urlInv_init (m : Nat) (policy : ScopePolicy) : UrlInv (initRun m policy) := by
  simp [UrlInv, initRun]

set_option maxHeartbeats 2000000 in
theorem urlInv_step (r : Run) (e : Event) (h : UrlInv r) : UrlInv (step r e) := by
  obtain ⟨st, ic, mi, fc, pu, fr, ba, pol⟩ := r
  simp only [UrlInv] at h ⊢
  cases st <;> cases e <;>
    simp only [step] <;>
    (try split) <;>
    simp_all

theorem iterInv_trace (m : Nat) (policy : ScopePolicy) (hm : 1 ≤ m)
    (events : List Event) : IterInv (runTrace m policy events) := by
  suffices h : ∀ (r : Run), IterInv r → IterInv (events.foldl step r) from
    h _ (iterInv_init m policy hm)
  induction events with
  | nil => exact fun r hr => hr
  | cons e es ih => exact fun r hr => ih (step r e) (iterInv_step r e hr)

theorem urlInv_trace (m : Nat) (policy : ScopePolicy)
    (events : List Event) : UrlInv (runTrace m policy events) := by
  suffices h : ∀ (r : Run), UrlInv r → UrlInv (events.foldl step r) from
    h _ (urlInv_init m policy)
  induction events with
  | nil => exact fun r hr => hr
  | cons e es ih => exact fun r hr => ih (step r e) (urlInv_step r e hr)

set_option maxHeartbeats 2000000 in
theorem step_terminal (r : Run) (e : Event) (h : r.status.isTerminal = true) :
    step r e = r := by
  obtain ⟨st, ic, mi, fc, pu, fr, ba, pol⟩ := r
  cases st <;> simp_all [Status.isTerminal] <;> cases e <;> simp [step]

theorem foldl_terminal (r : Run) (events : List Event)
    (h : r.status.isTerminal = true) : events.foldl step r = r := by
  induction events with
  | nil => rfl
  | cons e es ih => rw [List.foldl_cons, step_terminal r e h]; exact ih

set_option maxHeartbeats 2000000 in
theorem maxIterations_step (r : Run) (e : Event) :
    (step r e).maxIterations = r.maxIterations := by
  obtain ⟨st, ic, mi, fc, pu, fr, ba, pol⟩ := r
  cases st <;> cases e <;> simp only [step] <;> (try split) <;> rfl

theorem maxIterations_trace (m : Nat) (policy : ScopePolicy) (events : List Event) :
    (runTrace m policy events).maxIterations = m := by
  suffices h : ∀ (r : Run), (events.foldl step r).maxIterations = r.maxIterations from
    h (initRun m policy)
  induction events with
  | nil => exact fun r => rfl
  | cons e es ih => exact fun r => (ih (step r e)).trans (maxIterations_step r e)

/-- C1: at every point in a run's lifecycle the iteration count is at most
`maxIterations`, it equals the number of BUILDING attempts made so far, and
the cap is inclusive: at most `maxIterations` build attempts occur in total,
counting the first. -/
theorem iteration_cap_invariant (m : Nat) (policy : ScopePolicy)
    (events : List Event) (hm : 1 ≤ m) :
    (runTrace m policy events).iterationCount ≤ m ∧
    (runTrace m policy events).iterationCount = (runTrace m policy events).buildAttempts ∧
    (runTrace m policy events).buildAttempts ≤ m := by
  obtain ⟨_, hba, hle, _⟩ := iterInv_trace m policy hm events
  rw [maxIterations_trace m policy events] at hle
  exact ⟨hle, hba, hba ▸ hle⟩

/-- Witness for C1: a run with cap 2 that fails verification once and then
succeeds ends DONE having made exactly 2 build attempts. -/
theorem iteration_cap_invariant_witness :
    1 ≤ 2 ∧
    ((runTrace 2 ⟨25, [".env"]⟩
        [.start, .sandboxReady, .planProduced, .testsWritten,
         .agentDone ["src/a.ts"], .checksFail, .agentDone ["src/a.ts"],
         .checksPass, .pushed "https://example.com/pr/1"]).iterationCount ≤ 2 ∧
      (runTrace 2 ⟨25, [".env"]⟩
        [.start, .sandboxReady, .planProduced, .testsWritten,
         .agentDone ["src/a.ts"], .checksFail, .agentDone ["src/a.ts"],
         .checksPass, .pushed "https://example.com/pr/1"]).iterationCount =
      (runTrace 2 ⟨25, [".env"]⟩
        [.start, .sandboxReady, .planProduced, .testsWritten,
         .agentDone ["src/a.ts"], .checksFail, .agentDone ["src/a.ts"],
         .checksPass, .pushed "https://example.com/pr/1"]).buildAttempts ∧
      (runTrace 2 ⟨25, [".env"]⟩
        [.start, .sandboxReady, .planProduced, .testsWritten,
         .agentDone ["src/a.ts"], .checksFail, .agentDone ["src/a.ts"],
         .checksPass, .pushed "https://example.com/pr/1"]).buildAttempts ≤ 2) :=
  ⟨by decide,
   iteration_cap_invariant 2 ⟨25, [".env"]⟩
     [.start, .sandboxReady, .planProduced, .testsWritten,
      .agentDone ["src/a.ts"], .checksFail, .agentDone ["src/a.ts"],
      .checksPass, .pushed "https://example.com/pr/1"] (by decide)⟩

/-- C2: whenever the agent's diff violates the scope policy, a run in
BUILDING transitions directly to FAILED with reason ScopeViolation —
regardless of the remaining iteration budget — and its status stays FAILED
under every continuation, so VERIFYING is never entered and the violation
is never retried. -/
theorem scope_violation_fatal (r : Run) (changedFiles : List String)
    (hb : r.status = .BUILDING)
    (hv : scopeViolation r.policy changedFiles = true) :
    (step r (.agentDone changedFiles)).status = .FAILED ∧
    (step r (.agentDone changedFiles)).failureReason = some .ScopeViolation ∧
    ∀ events : List Event,
      (events.foldl step (step r (.agentDone changedFiles))).status = .FAILED := by
  obtain ⟨st, ic, mi, fc, pu, fr, ba, pol⟩ := r
  subst hb
  have hstep : (step ⟨.BUILDING, ic, mi, fc, pu, fr, ba, pol⟩
      (.agentDone changedFiles)).status = .FAILED := by
    simp [step, hv]
  refine ⟨hstep, by simp [step, hv], fun events => ?_⟩
  rw [foldl_terminal _ events (by rw [hstep]; rfl)]
  exact hstep

/-- Witness for C2: a BUILDING run with budget left (iteration 1 of 2) whose
agent touched 2 files against a 1-file limit fails immediately and stays
FAILED even if verification events arrive afterwards. -/
theorem scope_violation_fatal_witness :
    (Run.status ⟨.BUILDING, 1, 2, 0, none, none, 1, ⟨1, [".env"]⟩⟩ = .BUILDING ∧
     scopeViolation ⟨1, [".env"]⟩ ["src/a.ts", "src/b.ts"] = true) ∧
    ((step ⟨.BUILDING, 1, 2, 0, none, none, 1, ⟨1, [".env"]⟩⟩
        (.agentDone ["src/a.ts", "src/b.ts"])).status = .FAILED ∧
     (step ⟨.BUILDING, 1, 2, 0, none, none, 1, ⟨1, [".env"]⟩⟩
        (.agentDone ["src/a.ts", "src/b.ts"])).failureReason =
       some .ScopeViolation ∧
     ([Event.checksPass, Event.pushed "u"].foldl step
        (step ⟨.BUILDING, 1, 2, 0, none, none, 1, ⟨1, [".env"]⟩⟩
          (.agentDone ["src/a.ts", "src/b.ts"]))).status = .FAILED) := by
  refine ⟨⟨rfl, by decide⟩, ?_⟩
  obtain ⟨h1, h2, h3⟩ :=
    scope_violation_fatal ⟨.BUILDING, 1, 2, 0, none, none, 1, ⟨1, [".env"]⟩⟩
      ["src/a.ts", "src/b.ts"] rfl (by decide)
  exact ⟨h1, h2, h3 [Event.checksPass, Event.pushed "u"]⟩

/-- C5: for every run, at every point in its lifecycle, the change-request
URL field is set if and only if the run's status is DONE. -/
theorem pr_url_iff_done (m : Nat) (policy : ScopePolicy) (events : List Event) :
    ((runTrace m policy events).prUrl).isSome ↔
      (runTrace m policy events).status = .DONE :=
  urlInv_trace m policy events

theorem runChecks_sublist (sandbox : SandboxChecks) (ks : List CheckKind) :
    ((runChecks sandbox ks).map CheckResult.kind).Sublist ks := by
  induction ks with
  | nil => simp [runChecks]
  | cons c rest ih =>
    simp only [runChecks]
    split_ifs with hk hpass
    · simp only [List.map_cons]
      exact List.Sublist.cons₂ c ih
    · simp only [List.map_cons, List.map_nil]
      exact List.Sublist.cons₂ c (List.nil_sublist rest)
    · exact ih.cons c

theorem runChecks_skipped (sandbox : SandboxChecks) (c : CheckKind)
    (h : sandbox.hasScript c = false) (ks : List CheckKind) :
    c ∉ (runChecks sandbox ks).map CheckResult.kind := by
  induction ks with
  | nil => simp [runChecks]
  | cons k rest ih =>
    simp only [runChecks]
    split_ifs with hk hpass
    · simp only [List.map_cons, List.mem_cons]
      rintro (rfl | hmem)
      · rw [h] at hk; exact Bool.false_ne_true hk
      · exact ih hmem
    · simp only [List.map_cons, List.map_nil, List.mem_cons, List.not_mem_nil, or_false]
      rintro rfl
      rw [h] at hk; exact Bool.false_ne_true hk
    · exact ih

theorem runChecks_pass_all (sandbox : SandboxChecks)
    (hall : ∀ c, sandbox.hasScript c = true → (sandbox.exec c).exitCode = 0)
    (ks : List CheckKind) : ∀ r ∈ runChecks sandbox ks, r.exitCode = 0 := by
  induction ks with
  | nil => simp [runChecks]
  | cons k rest ih =>
    simp only [runChecks]
    split_ifs with hk hpass
    · intro r hr
      rcases List.mem_cons.mp hr with rfl | hr
      · exact hpass
      · exact ih r hr
    · exact absurd (hall k hk) hpass
    · exact ih

theorem runChecks_stop_first_fail (sandbox : SandboxChecks) (ks : List CheckKind) :
    ∀ r ∈ (runChecks sandbox ks).dropLast, r.exitCode = 0 := by
  induction ks with
  | nil => simp [runChecks]
  | cons k rest ih =>
    simp only [runChecks]
    split_ifs with hk hpass
    · cases ht : runChecks sandbox rest with
      | nil => simp
      | cons y t =>
        rw [ht] at ih
        intro r hr
        rw [List.dropLast_cons_of_ne_nil (List.cons_ne_nil y t)] at hr
        rcases List.mem_cons.mp hr with rfl | hr
        · exact hpass
        · exact ih r hr
    · simp
    · exact ih

/-- C7: verify runs the declared checks in §4.4's fixed order; a check
whose script is absent from the project is skipped rather than counted as
failed (it never appears among the executed checks, and a run in which
every present check passes verifies overall); and no check after the first
failing one is executed. -/
theorem verify_fixed_order_skip_stop (sandbox : SandboxChecks) :
    ((verify sandbox).results.map CheckResult.kind).Sublist checkOrder ∧
    (∀ c, sandbox.hasScript c = false →
      c ∉ (verify sandbox).results.map CheckResult.kind) ∧
    ((∀ c, sandbox.hasScript c = true → (sandbox.exec c).exitCode = 0) →
      (verify sandbox).passed = true) ∧
    (∀ r ∈ (verify sandbox).results.dropLast, r.exitCode = 0) := by
  refine ⟨runChecks_sublist sandbox checkOrder,
    fun c h => runChecks_skipped sandbox c h checkOrder,
    fun hall => ?_,
    runChecks_stop_first_fail sandbox checkOrder⟩
  have h := runChecks_pass_all sandbox hall checkOrder
  simp only [verify, List.all_eq_true]
  intro r hr
  simpa using h r hr

/-- Witness for C7: with the lint script absent, the test script passing
and the typecheck script failing, lint is skipped (not failed); with all
scripts present and passing, verification passes; and the failing
typecheck is the last executed check. -/
theorem verify_fixed_order_skip_stop_witness :
    (SandboxChecks.hasScript
        ⟨fun c => !(c == .lint),
         fun c => if c == .typecheck then ⟨1, "type error"⟩ else ⟨0, "ok"⟩⟩
        .lint = false ∧
      CheckKind.lint ∉
        (verify ⟨fun c => !(c == .lint),
          fun c => if c == .typecheck then ⟨1, "type error"⟩ else ⟨0, "ok"⟩⟩).results.map
          CheckResult.kind) ∧
    (verify ⟨fun _ => true, fun _ => ⟨0, "ok"⟩⟩).passed = true ∧
    ((⟨.test, 0, "ok"⟩ : CheckResult) ∈
        (verify ⟨fun c => !(c == .lint),
          fun c => if c == .typecheck then ⟨1, "type error"⟩ else ⟨0, "ok"⟩⟩).results.dropLast ∧
      CheckResult.exitCode ⟨.test, 0, "ok"⟩ = 0) := by
  refine ⟨⟨rfl, ?_⟩, ?_, ?_, ?_⟩
  · exact (verify_fixed_order_skip_stop
      ⟨fun c => !(c == .lint),
       fun c => if c == .typecheck then ⟨1, "type error"⟩ else ⟨0, "ok"⟩⟩).2.1 .lint rfl
  · exact (verify_fixed_order_skip_stop
      ⟨fun _ => true, fun _ => ⟨0, "ok"⟩⟩).2.2.1 (fun c _ => rfl)
  · decide
  · exact (verify_fixed_order_skip_stop
      ⟨fun c => !(c == .lint),
       fun c => if c == .typecheck then ⟨1, "type error"⟩ else ⟨0, "ok"⟩⟩).2.2.2
      ⟨.test, 0, "ok"⟩ (by decide)

theorem find?_append_of_none {α : Type} (l : List α) (p : α → Bool) (x : α)
    (h : ∀ a ∈ l, p a = false) :
    (l ++ [x]).find? p = [x].find? p := by
  induction l with
  | nil => rfl
  | cons a t ih =>
    have ha := h a (List.mem_cons_self a t)
    simp only [List.cons_append, List.find?_cons, ha]
    exact ih (fun b hb => h b (List.mem_cons_of_mem a hb))

/-- C6: publish is idempotent — for a run branch with no pre-existing
change request, the first publish creates exactly one change request, and
re-invoking publish with no new commits is a no-op that returns the same
change-request URL and creates no duplicate. -/
theorem publish_idempotent (host : List ChangeRequest)
    (branch description : String)
    (hfresh : ∀ cr ∈ host, cr.branch ≠ branch) :
    (publish (publish host branch description).1 branch description).2 =
      (publish host branch description).2 ∧
    (publish (publish host branch description).1 branch description).1 =
      (publish host branch description).1 ∧
    (publish host branch description).1.countP (fun cr => cr.branch == branch) = 1 := by
  have hp : ∀ cr ∈ host, (cr.branch == branch) = false := by
    intro cr hcr
    simpa using hfresh cr hcr
  have hfind : host.find? (fun cr => cr.branch == branch) = none :=
    List.find?_eq_none.mpr (fun cr hcr => by rw [hp cr hcr]; exact Bool.false_ne_true)
  have hfirst : publish host branch description =
      (host ++ [⟨branch, changeRequestUrl branch, description⟩],
       changeRequestUrl branch) := by
    simp [publish, hfind]
  have hfind2 : (host ++ [(⟨branch, changeRequestUrl branch, description⟩ : ChangeRequest)]).find?
      (fun cr => cr.branch == branch) =
      some ⟨branch, changeRequestUrl branch, description⟩ := by
    rw [find?_append_of_none host _ _ hp]
    simp [List.find?_cons]
  have h1 : ∀ (l : List ChangeRequest), (∀ cr ∈ l, (cr.branch == branch) = false) →
      l.map (fun cr =>
        if cr.branch == branch then { cr with description := description } else cr) = l := by
    intro l
    induction l with
    | nil => exact fun _ => rfl
    | cons a t ih =>
      intro hl
      have ha := hl a (List.mem_cons_self a t)
      simp only [List.map_cons, ha, Bool.false_eq_true, if_false]
      rw [ih (fun b hb => hl b (List.mem_cons_of_mem a hb))]
  have hmap : (host ++ [(⟨branch, changeRequestUrl branch, description⟩ : ChangeRequest)]).map
      (fun cr => if cr.branch == branch then { cr with description := description } else cr) =
      host ++ [⟨branch, changeRequestUrl branch, description⟩] := by
    rw [List.map_append, h1 host hp]
    simp
  have hsecond : publish (host ++ [(⟨branch, changeRequestUrl branch, description⟩ : ChangeRequest)])
      branch description =
      (host ++ [⟨branch, changeRequestUrl branch, description⟩], changeRequestUrl branch) := by
    simp only [publish, hfind2, hmap]
  refine ⟨?_, ?_, ?_⟩
  · rw [hfirst]; simp only [hsecond, hfirst]
  · rw [hfirst]; simp only [hsecond, hfirst]
  · rw [hfirst]
    have hzero : host.countP (fun cr => cr.branch == branch) = 0 :=
      List.countP_eq_zero.mpr (fun cr hcr => by rw [hp cr hcr]; exact Bool.false_ne_true)
    rw [List.countP_append, hzero]
    simp [List.countP_cons]

/-- Witness for C6: publishing twice for a fresh branch, with one unrelated
change request already open, returns the same URL both times, leaves the
host unchanged on the second call, and yields exactly one change request
on the branch. -/
theorem publish_idempotent_witness :
    (∀ cr ∈ [(⟨"other", "https://remote.host/change-requests/other", "old"⟩ : ChangeRequest)],
        ChangeRequest.branch cr ≠ "run-42") ∧
    ((publish (publish [⟨"other", "https://remote.host/change-requests/other", "old"⟩]
          "run-42" "Adds run 42").1 "run-42" "Adds run 42").2 =
      (publish [(⟨"other", "https://remote.host/change-requests/other", "old"⟩ : ChangeRequest)]
          "run-42" "Adds run 42").2 ∧
     (publish (publish [⟨"other", "https://remote.host/change-requests/other", "old"⟩]
          "run-42" "Adds run 42").1 "run-42" "Adds run 42").1 =
      (publish [(⟨"other", "https://remote.host/change-requests/other", "old"⟩ : ChangeRequest)]
          "run-42" "Adds run 42").1 ∧
     (publish [(⟨"other", "https://remote.host/change-requests/other", "old"⟩ : ChangeRequest)]
          "run-42" "Adds run 42").1.countP (fun cr => cr.branch == "run-42") = 1) :=
  ⟨by decide,
   publish_idempotent [⟨"other", "https://remote.host/change-requests/other", "old"⟩]
     "run-42" "Adds run 42" (by decide)⟩

/-- C4: the run-logs read operation takes an optional sequence cursor;
with a cursor it returns exactly the run's log entries from that sequence
number onward, and in particular never an entry from before the cursor, so
an incremental poller re-reads no history. -/
theorem run_logs_cursor (store : List ExecutionLog) (runId : String) (c : Nat) :
    (∀ l ∈ getRunLogs store runId (some c), l.runId = runId ∧ c ≤ l.seq) ∧
    (∀ l, l ∈ getRunLogs store runId (some c) ↔
      (l ∈ getRunLogs store runId none ∧ c ≤ l.seq)) ∧
    (∀ l ∈ getRunLogs store runId (some c), ¬ l.seq < c) := by
  refine ⟨?_, ?_, ?_⟩
  · intro l hl
    simp only [getRunLogs, List.mem_filter, decide_eq_true_eq, beq_iff_eq] at hl
    exact ⟨hl.1.2, hl.2⟩
  · intro l
    simp only [getRunLogs, List.mem_filter, decide_eq_true_eq]
  · intro l hl
    simp only [getRunLogs, List.mem_filter, decide_eq_true_eq] at hl
    omega

/-- Witness for C4: with two entries for run r1 and a cursor at sequence 1,
the entry at sequence 1 is returned and satisfies the cursor bound. -/
theorem run_logs_cursor_witness :
    ((⟨"r1", 1, "building", "info", "b"⟩ : ExecutionLog) ∈
      getRunLogs
        [⟨"r1", 0, "cloning", "info", "a"⟩, ⟨"r1", 1, "building", "info", "b"⟩,
         ⟨"r2", 0, "cloning", "info", "c"⟩] "r1" (some 1)) ∧
    (ExecutionLog.runId ⟨"r1", 1, "building", "info", "b"⟩ = "r1" ∧
      1 ≤ ExecutionLog.seq ⟨"r1", 1, "building", "info", "b"⟩) :=
  ⟨by decide,
   (run_logs_cursor
      [⟨"r1", 0, "cloning", "info", "a"⟩, ⟨"r1", 1, "building", "info", "b"⟩,
       ⟨"r2", 0, "cloning", "info", "c"⟩] "r1" 1).1
     ⟨"r1", 1, "building", "info", "b"⟩ (by decide)⟩

/-- C3 counterexample: "cancelled" is one of the §4.3 RetryController
states, but the UI's STATUS_LABELS mapping has no entry for it, so the
mapping does not cover the whole state set. -/
theorem status_labels_missing_cancelled :
    ¬ (∀ s ∈ retryControllerStates, s ∈ STATUS_LABELS.map Prod.fst) := by
  decide

/-- C3 (amended): the keys of the UI's STATUS_LABELS mapping are exactly
the §4.3 states except CANCELLED, which is missing from the mapping (the
modal falls back to showing the raw status string for it); no extra status
exists. -/
theorem status_labels_exactly_states_minus_cancelled :
    STATUS_LABELS.map Prod.fst = retryControllerStates.erase "cancelled" ∧
    "cancelled" ∈ retryControllerStates := by
  decide

/-- C9: the ExecutionModal polling loop terminates on its own exactly when
a fetched run status equals "done" or "failed"; for a run whose status is
"cancelled" it keeps re-polling (every 2 seconds) for as long as the modal
stays mounted. -/
theorem poll_loop_stops_iff_done_or_failed :
    (∀ s, pollShouldStop s = true ↔ (s = "done" ∨ s = "failed")) ∧
    (∀ statuses : List String,
      (pollLoop statuses).isSome ↔ ∃ s ∈ statuses, (s = "done" ∨ s = "failed")) ∧
    (∀ n : Nat, pollLoop (List.replicate n "cancelled") = none) := by
  have hstop : ∀ s, pollShouldStop s = true ↔ (s = "done" ∨ s = "failed") := by
    intro s
    simp [pollShouldStop]
  refine ⟨hstop, ?_, ?_⟩
  · intro statuses
    induction statuses with
    | nil => simp [pollLoop]
    | cons s rest ih =>
      by_cases hs : pollShouldStop s = true
      · simp [pollLoop, hs, (hstop s).mp hs]
      · have hs' : pollShouldStop s = false := by
          simpa using hs
        have hns := (hstop s).not.mp (by simp [hs'])
        simp only [pollLoop, hs', Bool.false_eq_true, if_false, List.mem_cons]
        rw [show (Option.map (fun n => n + 1) (pollLoop rest)).isSome = (pollLoop rest).isSome
          from by cases pollLoop rest <;> rfl]
        rw [ih]
        constructor
        · rintro ⟨x, hx, hdx⟩
          exact ⟨x, Or.inr hx, hdx⟩
        · rintro ⟨x, hx | hx, hdx⟩
          · exact absurd (hx ▸ hdx) hns
          · exact ⟨x, hx, hdx⟩
  · intro n
    induction n with
    | zero => rfl
    | succ k ih =>
      have hc : pollShouldStop "cancelled" = false := by decide
      simp [List.replicate_succ, pollLoop, hc, ih]

/-- C8: for a request whose bearer token is expired but decodable, with any
non-empty x-refresh-token header, the middleware answers 200 with a token
freshly signed from the expired token's decoded (unverified) payload, and
the answer is the same for any two non-empty refresh-header values — the
refresh token itself is never verified. -/
theorem auth_refresh_unverified (env : String → TokenRepr) (now : Nat)
    (req : AuthRequest) (authHeader : String) (j : Jwt)
    (hauth : req.authorization = some authHeader)
    (hbearer : strStartsWith authHeader "Bearer " = true)
    (htok : env ((authHeader.splitOn " ").getD 1 "") = .signed j)
    (hsecret : j.secret = JWT_SECRET)
    (hexp : j.expiresAt ≤ now)
    (hrefresh : headerTruthy req.xRefreshToken = true) :
    authMiddleware env now req =
      .respond 200 "Token refreshed"
        (some (createToken { id := j.payload.id, permissions := j.payload.permissions }
          now defaultTokenLifetime)) ∧
    (∀ r1 r2 : String, r1 ≠ "" → r2 ≠ "" →
      authMiddleware env now { req with xRefreshToken := some r1 } =
        authMiddleware env now { req with xRefreshToken := some r2 }) := by
  have hverify : jwtVerify JWT_SECRET now (env ((authHeader.splitOn " ").getD 1 "")) =
      .error .expired := by
    rw [htok]
    simp [jwtVerify, hsecret, hexp]
  constructor
  · simp only [authMiddleware, hauth]
    rw [if_pos hbearer, hverify, if_pos hrefresh, htok]
    simp [jwtDecode]
  · intro r1 r2 h1 h2
    have ht1 : headerTruthy (some r1) = true := by simp [headerTruthy, h1]
    have ht2 : headerTruthy (some r2) = true := by simp [headerTruthy, h2]
    simp only [authMiddleware, hauth]
    rw [if_pos hbearer, hverify, htok]
    simp [jwtDecode, ht1, ht2]
    rw [if_pos hbearer]

/-- Witness for C8: a token signed with the right secret but expired
(expiry 100, clock 200), sent with refresh header "refresh-me", yields the
200 refresh response, identically for refresh values "a" and "b". -/
theorem auth_refresh_unverified_witness :
    ((AuthRequest.mk (some "Bearer tok") (some "refresh-me")).authorization =
        some "Bearer tok" ∧
      strStartsWith "Bearer tok" "Bearer " = true ∧
      (fun _ : String => TokenRepr.signed
          ⟨⟨"u1", ["read"]⟩, "pee-auth-secret-key-for-testing", 100⟩)
        (("Bearer tok".splitOn " ").getD 1 "") =
        .signed ⟨⟨"u1", ["read"]⟩, "pee-auth-secret-key-for-testing", 100⟩ ∧
      Jwt.secret ⟨⟨"u1", ["read"]⟩, "pee-auth-secret-key-for-testing", 100⟩ = JWT_SECRET ∧
      Jwt.expiresAt ⟨⟨"u1", ["read"]⟩, "pee-auth-secret-key-for-testing", 100⟩ ≤ 200 ∧
      headerTruthy (AuthRequest.mk (some "Bearer tok") (some "refresh-me")).xRefreshToken =
        true) ∧
    (authMiddleware
        (fun _ => TokenRepr.signed ⟨⟨"u1", ["read"]⟩, "pee-auth-secret-key-for-testing", 100⟩)
        200 (AuthRequest.mk (some "Bearer tok") (some "refresh-me")) =
      .respond 200 "Token refreshed"
        (some (createToken ⟨"u1", ["read"]⟩ 200 defaultTokenLifetime)) ∧
     authMiddleware
        (fun _ => TokenRepr.signed ⟨⟨"u1", ["read"]⟩, "pee-auth-secret-key-for-testing", 100⟩)
        200 { AuthRequest.mk (some "Bearer tok") (some "refresh-me") with
              xRefreshToken := some "a" } =
      authMiddleware
        (fun _ => TokenRepr.signed ⟨⟨"u1", ["read"]⟩, "pee-auth-secret-key-for-testing", 100⟩)
        200 { AuthRequest.mk (some "Bearer tok") (some "refresh-me") with
              xRefreshToken := some "b" }) := by
  have h := auth_refresh_unverified
    (fun _ => TokenRepr.signed ⟨⟨"u1", ["read"]⟩, "pee-auth-secret-key-for-testing", 100⟩)
    200 (AuthRequest.mk (some "Bearer tok") (some "refresh-me")) "Bearer tok"
    ⟨⟨"u1", ["read"]⟩, "pee-auth-secret-key-for-testing", 100⟩
    rfl (by decide) rfl rfl (by decide) (by decide)
  exact ⟨⟨rfl, by decide, rfl, rfl, by decide, by decide⟩,
    h.1, h.2 "a" "b" (by decide) (by decide)⟩

theorem ancChain_parent_mem (features : List FeatureNode) {p : List FeatureNode}
    {f : FeatureNode} (h : AncChain features p f) :
    ∀ a ∈ p, truthyId a.parent_feature_id = false ∨
      ∃ b ∈ p, a.parent_feature_id = some b.id := by
  induction h with
  | nil f hf =>
    intro a ha
    exact absurd ha (List.not_mem_nil a)
  | cons f g p hg ht hpar hch ih =>
    intro a ha
    rcases List.mem_cons.mp ha with rfl | ha2
    · cases hch with
      | nil f2 hroot => exact Or.inl hroot
      | cons f2 g2 p2 hg2 ht2 hpar2 hch2 =>
        exact Or.inr ⟨g2, List.mem_cons_of_mem a (List.mem_cons_self g2 p2), hpar2⟩
    · rcases ih a ha2 with hroot | ⟨b, hb, hparb⟩
      · exact Or.inl hroot
      · exact Or.inr ⟨b, List.mem_cons_of_mem g hb, hparb⟩

theorem id_inj_of_nodup (features : List FeatureNode)
    (hnodup : (features.map FeatureNode.id).Nodup) :
    ∀ a ∈ features, ∀ b ∈ features, a.id = b.id → a = b := by
  intro a ha b hb hab
  exact List.inj_on_of_nodup_map hnodup ha hb hab

theorem nodup_sub_length (features : List FeatureNode) (l : List FeatureNode)
    (hn : (l.map FeatureNode.id).Nodup) (hsub : ∀ a ∈ l, a ∈ features) :
    l.length ≤ features.length := by
  have h1 : (l.map FeatureNode.id) ⊆ features.map FeatureNode.id := by
    intro x hx
    rcases List.mem_map.mp hx with ⟨a, ha, rfl⟩
    exact List.mem_map_of_mem _ (hsub a ha)
  have h2 := (hn.subperm h1).length_le
  simpa using h2

theorem mem_childrenOf (features : List FeatureNode) (pid : String) (c : FeatureNode)
    (h : c ∈ childrenOf features pid) :
    c ∈ features ∧ truthyId c.parent_feature_id = true ∧
      c.parent_feature_id = some pid := by
  have h1 := List.mem_filter.mp h
  have h2 := Bool.and_eq_true_iff.mp h1.2
  refine ⟨h1.1, h2.1, ?_⟩
  simpa using h2.2

theorem layoutNode_isSome (features : List FeatureNode)
    (hnodup : (features.map FeatureNode.id).Nodup) :
    ∀ fuel : Nat, ∀ (f : FeatureNode) (p : List FeatureNode) (depth y : Nat),
      f ∈ features → (∀ a ∈ p, a ∈ features) → AncChain features p f →
      ((f :: p).map FeatureNode.id).Nodup →
      features.length + 1 - p.length ≤ fuel →
      (layoutNode features fuel f depth y).isSome = true := by
  intro fuel
  induction fuel with
  | zero =>
    intro f p depth y hf hp hchain hnd hle
    exfalso
    have hlen : (f :: p).length ≤ features.length :=
      nodup_sub_length features (f :: p) hnd (fun a ha => by
        rcases List.mem_cons.mp ha with rfl | h2
        · exact hf
        · exact hp a h2)
    simp only [List.length_cons] at hlen
    omega
  | succ fuel ih =>
    intro f p depth y hf hp hchain hnd hle
    have hch : ∀ cs, (∀ c ∈ cs, c ∈ childrenOf features f.id) → ∀ d y0,
        (layoutChildren features fuel cs d y0).isSome = true := by
      intro cs
      induction cs with
      | nil =>
        intro _ d y0
        simp [layoutChildren]
      | cons c rest ihc =>
        intro hcs d y0
        obtain ⟨hcf, hct, hcp⟩ :=
          mem_childrenOf features f.id c (hcs c (List.mem_cons_self c rest))
        have hp2 : ∀ a ∈ f :: p, a ∈ features := by
          intro a ha
          rcases List.mem_cons.mp ha with rfl | h2
          · exact hf
          · exact hp a h2
        have hchain2 : AncChain features (f :: p) c :=
          AncChain.cons c f p hf hct hcp hchain
        have hnotin : c.id ∉ (f :: p).map FeatureNode.id := by
          intro hmem
          rcases List.mem_map.mp hmem with ⟨a, ha, haid⟩
          have hac : a = c := id_inj_of_nodup features hnodup a (hp2 a ha) c hcf haid
          subst hac
          rcases List.mem_cons.mp ha with heq | hap
          · rw [heq] at hcp hct
            cases hchain with
            | nil f2 hroot =>
              rw [hroot] at hct
              exact Bool.false_ne_true hct
            | cons f2 g p2 hg ht2 hpar2 hch2 =>
              have hgid : g.id = f.id := Option.some.inj (hpar2.symm.trans hcp)
              have : f.id ∈ (g :: p2).map FeatureNode.id := by
                rw [← hgid]
                exact List.mem_map_of_mem FeatureNode.id (List.mem_cons_self g p2)
              exact (List.nodup_cons.mp hnd).1 this
          · rcases ancChain_parent_mem features hchain a hap with hroot | ⟨b, hb, hparb⟩
            · rw [hroot] at hct
              exact Bool.false_ne_true hct
            · have hbid : b.id = f.id := Option.some.inj (hparb.symm.trans hcp)
              have hbf : b = f := id_inj_of_nodup features hnodup b (hp b hb) f hf hbid
              subst hbf
              exact (List.nodup_cons.mp hnd).1 (List.mem_map_of_mem FeatureNode.id hb)
        have hnd2 : ((c :: f :: p).map FeatureNode.id).Nodup := by
          rw [List.map_cons, List.nodup_cons]
          exact ⟨hnotin, hnd⟩
        have hle2 : features.length + 1 - (f :: p).length ≤ fuel := by
          simp only [List.length_cons]
          omega
        have h1 := ih c (f :: p) d y0 hcf hp2 hchain2 hnd2 hle2
        cases hln : layoutNode features fuel c d y0 with
        | none =>
          rw [hln] at h1
          simp at h1
        | some v =>
          obtain ⟨ns, yMid⟩ := v
          have h2 := ihc (fun x hx => hcs x (List.mem_cons_of_mem c hx)) d yMid
          cases hlc : layoutChildren features fuel rest d yMid with
          | none =>
            rw [hlc] at h2
            simp at h2
          | some w =>
            obtain ⟨ns2, yNext⟩ := w
            simp [layoutChildren, hln, hlc]
    have hmain := hch (childrenOf features f.id) (fun c hc => hc) (depth + 1) (y + 100)
    cases hlc : layoutChildren features fuel (childrenOf features f.id)
        (depth + 1) (y + 100) with
    | none =>
      rw [hlc] at hmain
      simp at hmain
    | some v =>
      obtain ⟨ns, yNext⟩ := v
      simp [layoutNode, hlc]

theorem layout_sound (features : List FeatureNode) :
    ∀ fuel : Nat,
      (∀ (f : FeatureNode) (depth y : Nat) (ns : List FlowNode) (yN : Nat),
        f ∈ features → ReachesRoot features f →
        layoutNode features fuel f depth y = some (ns, yN) →
        ∀ node ∈ ns, ∃ g ∈ features, ReachesRoot features g ∧ node.id = g.id) ∧
      (∀ (cs : List FeatureNode) (depth y : Nat) (ns : List FlowNode) (yN : Nat),
        (∀ c ∈ cs, c ∈ features ∧ ReachesRoot features c) →
        layoutChildren features fuel cs depth y = some (ns, yN) →
        ∀ node ∈ ns, ∃ g ∈ features, ReachesRoot features g ∧ node.id = g.id) := by
  intro fuel
  induction fuel with
  | zero =>
    constructor
    · intro f depth y ns yN _ _ h
      simp [layoutNode] at h
    · intro cs depth y ns yN hcs h
      cases cs with
      | nil =>
        simp [layoutChildren] at h
        intro node hnode
        rw [h.1] at hnode
        exact absurd hnode (List.not_mem_nil node)
      | cons c rest =>
        simp [layoutChildren, layoutNode] at h
  | succ fuel ih =>
    obtain ⟨ihn, ihc⟩ := ih
    have hn1 : ∀ (f : FeatureNode) (depth y : Nat) (ns : List FlowNode) (yN : Nat),
        f ∈ features → ReachesRoot features f →
        layoutNode features (fuel + 1) f depth y = some (ns, yN) →
        ∀ node ∈ ns, ∃ g ∈ features, ReachesRoot features g ∧ node.id = g.id := by
      intro f depth y ns yN hf hrr h
      simp only [layoutNode] at h
      cases hlc : layoutChildren features fuel (childrenOf features f.id)
          (depth + 1) (y + 100) with
      | none =>
        rw [hlc] at h
        simp at h
      | some v =>
        obtain ⟨ns1, y1⟩ := v
        rw [hlc] at h
        simp at h
        intro node hnode
        rw [← h.1] at hnode
        rcases List.mem_cons.mp hnode with rfl | hmem
        · exact ⟨f, hf, hrr, rfl⟩
        · have hcs : ∀ c ∈ childrenOf features f.id,
              c ∈ features ∧ ReachesRoot features c := by
            intro c hc
            obtain ⟨hcf, hct, hcp⟩ := mem_childrenOf features f.id c hc
            exact ⟨hcf, ReachesRoot.child c f hf hct hcp hrr⟩
          exact ihc (childrenOf features f.id) (depth + 1) (y + 100) ns1 y1 hcs hlc node hmem
    refine ⟨hn1, ?_⟩
    intro cs
    induction cs with
    | nil =>
      intro depth y ns yN hcs h
      simp [layoutChildren] at h
      intro node hnode
      rw [h.1] at hnode
      exact absurd hnode (List.not_mem_nil node)
    | cons c rest ihrest =>
      intro depth y ns yN hcs h
      simp only [layoutChildren] at h
      cases hln : layoutNode features (fuel + 1) c depth y with
      | none =>
        rw [hln] at h
        simp at h
      | some v =>
        obtain ⟨ns1, yMid⟩ := v
        rw [hln] at h
        dsimp only at h
        cases hlc : layoutChildren features (fuel + 1) rest depth yMid with
        | none =>
          rw [hlc] at h
          simp at h
        | some w =>
          obtain ⟨ns2, yNext⟩ := w
          rw [hlc] at h
          simp at h
          intro node hnode
          rw [← h.1] at hnode
          rcases List.mem_append.mp hnode with h1 | h2
          · exact hn1 c depth y ns1 yMid (hcs c (List.mem_cons_self c rest)).1
              (hcs c (List.mem_cons_self c rest)).2 hln node h1
          · exact ihrest depth yMid ns2 yNext
              (fun x hx => hcs x (List.mem_cons_of_mem c hx)) hlc node h2

theorem layoutChildren_roots_isSome (features : List FeatureNode)
    (hnodup : (features.map FeatureNode.id).Nodup) :
    ∀ cs, (∀ c ∈ cs, c ∈ features ∧ truthyId c.parent_feature_id = false) →
      ∀ d y, (layoutChildren features (features.length + 1) cs d y).isSome = true := by
  intro cs
  induction cs with
  | nil =>
    intro _ d y
    simp [layoutChildren]
  | cons c rest ihc =>
    intro hcs d y
    obtain ⟨hcf, hcr⟩ := hcs c (List.mem_cons_self c rest)
    have h1 := layoutNode_isSome features hnodup (features.length + 1) c [] d y hcf
      (fun a ha => absurd ha (List.not_mem_nil a)) (AncChain.nil c hcr)
      (by simp) (by omega)
    cases hln : layoutNode features (features.length + 1) c d y with
    | none =>
      rw [hln] at h1
      simp at h1
    | some v =>
      obtain ⟨ns, yMid⟩ := v
      have h2 := ihc (fun x hx => hcs x (List.mem_cons_of_mem c hx)) d yMid
      cases hlc : layoutChildren features (features.length + 1) rest d yMid with
      | none =>
        rw [hlc] at h2
        simp at h2
      | some w =>
        obtain ⟨ns2, yNext⟩ := w
        simp [layoutChildren, hln, hlc]

theorem layoutNode_featureB_none :
    ∀ fuel depth y,
      layoutNode duplicateIdFeatures fuel featureB depth y = none := by
  intro fuel
  induction fuel with
  | zero =>
    intro depth y
    simp [layoutNode]
  | succ fuel ih =>
    intro depth y
    have hc : childrenOf duplicateIdFeatures featureB.id = [featureB] := by decide
    simp only [layoutNode, hc]
    simp only [layoutChildren, ih]

/-- C10 counterexample: on the two-element input `duplicateIdFeatures` —
a parentless feature with id "x" together with a feature of the same id
whose parent is "x" — the layout recursion of toFlowNodes never finishes
at any recursion depth: the second feature is its own child in the child
map and is reachable from the root, so the source code overflows the
stack on this input. -/
theorem toFlowNodes_diverges_on_duplicate_ids :
    ¬ ∃ fuel : Nat, (toFlowNodesFuel fuel duplicateIdFeatures).isSome = true := by
  rintro ⟨fuel, hf⟩
  have hA : ∀ fuel depth y,
      layoutNode duplicateIdFeatures fuel featureA depth y = none := by
    intro fuel2
    cases fuel2 with
    | zero =>
      intro depth y
      simp [layoutNode]
    | succ fuel2 =>
      intro depth y
      have hc : childrenOf duplicateIdFeatures featureA.id = [featureB] := by decide
      simp only [layoutNode, hc]
      simp only [layoutChildren, layoutNode_featureB_none fuel2]
  have hroots : duplicateIdFeatures.filter
      (fun f => !(truthyId f.parent_feature_id)) = [featureA] := by decide
  simp only [toFlowNodesFuel, hroots] at hf
  cases fuel with
  | zero =>
    simp only [layoutChildren, layoutNode] at hf
    simp at hf
  | succ fuel =>
    simp only [layoutChildren, hA (fuel + 1)] at hf
    simp at hf

/-- C10 (amended): for every finite input list of feature nodes with
pairwise-distinct ids — including inputs whose parent_feature_id
references form cycles — toFlowNodes terminates (recursion depth
features.length + 1 always suffices), and every emitted node stems from a
feature whose ancestor chain reaches a parentless feature, so features in
parent cycles are omitted from the output rather than looped over.  (With
duplicate ids the recursion can diverge, per the counterexample.) -/
theorem toFlowNodes_terminates_on_nodup_ids (features : List FeatureNode)
    (hnodup : (features.map FeatureNode.id).Nodup) :
    (toFlowNodesFuel (features.length + 1) features).isSome = true ∧
    (∀ out, toFlowNodesFuel (features.length + 1) features = some out →
      ∀ node ∈ out, ∃ g ∈ features, ReachesRoot features g ∧ node.id = g.id) := by
  have hroots : ∀ c ∈ features.filter (fun f => !(truthyId f.parent_feature_id)),
      c ∈ features ∧ truthyId c.parent_feature_id = false := by
    intro c hc
    have h1 := List.mem_filter.mp hc
    refine ⟨h1.1, ?_⟩
    simpa using h1.2
  constructor
  · have h := layoutChildren_roots_isSome features hnodup
      (features.filter (fun f => !(truthyId f.parent_feature_id))) hroots 0 0
    simp only [toFlowNodesFuel]
    cases hlc : layoutChildren features (features.length + 1)
        (features.filter (fun f => !(truthyId f.parent_feature_id))) 0 0 with
    | none =>
      rw [hlc] at h
      simp at h
    | some v =>
      obtain ⟨ns, yN⟩ := v
      simp
  · intro out hout node hnode
    simp only [toFlowNodesFuel] at hout
    cases hlc : layoutChildren features (features.length + 1)
        (features.filter (fun f => !(truthyId f.parent_feature_id))) 0 0 with
    | none =>
      rw [hlc] at hout
      simp at hout
    | some v =>
      obtain ⟨ns, yN⟩ := v
      rw [hlc] at hout
      simp at hout
      subst hout
      have hcs : ∀ c ∈ features.filter (fun f => !(truthyId f.parent_feature_id)),
          c ∈ features ∧ ReachesRoot features c := by
        intro c hc
        exact ⟨(hroots c hc).1, ReachesRoot.root c (hroots c hc).2⟩
      exact (layout_sound features (features.length + 1)).2
        (features.filter (fun f => !(truthyId f.parent_feature_id))) 0 0 ns yN
        hcs hlc node hnode

/-- Witness for C10 (amended): a four-feature input with distinct ids
containing a genuine parent cycle (l1 and l2 are each other's parents)
terminates at fuel 5, and its output's soundness holds. -/
theorem toFlowNodes_terminates_on_nodup_ids_witness :
    (([⟨"r", none, "Root", "", none, []⟩, ⟨"c", some "r", "Child", "", none, []⟩,
       ⟨"l1", some "l2", "Loop1", "", none, []⟩,
       ⟨"l2", some "l1", "Loop2", "", none, []⟩].map FeatureNode.id).Nodup ∧
    ((toFlowNodesFuel 5
        [⟨"r", none, "Root", "", none, []⟩, ⟨"c", some "r", "Child", "", none, []⟩,
         ⟨"l1", some "l2", "Loop1", "", none, []⟩,
         ⟨"l2", some "l1", "Loop2", "", none, []⟩]).isSome = true ∧
      (∀ out, toFlowNodesFuel 5
          [⟨"r", none, "Root", "", none, []⟩, ⟨"c", some "r", "Child", "", none, []⟩,
           ⟨"l1", some "l2", "Loop1", "", none, []⟩,
           ⟨"l2", some "l1", "Loop2", "", none, []⟩] = some out →
        ∀ node ∈ out, ∃ g ∈
          [⟨"r", none, "Root", "", none, []⟩, ⟨"c", some "r", "Child", "", none, []⟩,
           ⟨"l1", some "l2", "Loop1", "", none, []⟩,
           ⟨"l2", some "l1", "Loop2", "", none, []⟩],
          ReachesRoot
            [⟨"r", none, "Root", "", none, []⟩, ⟨"c", some "r", "Child", "", none, []⟩,
             ⟨"l1", some "l2", "Loop1", "", none, []⟩,
             ⟨"l2", some "l1", "Loop2", "", none, []⟩] g ∧ node.id = g.id))) :=
  ⟨by decide,
   toFlowNodes_terminates_on_nodup_ids
     [⟨"r", none, "Root", "", none, []⟩, ⟨"c", some "r", "Child", "", none, []⟩,
      ⟨"l1", some "l2", "Loop1", "", none, []⟩,
      ⟨"l2", some "l1", "Loop2", "", none, []⟩] (by decide)⟩

end PEE
